import Mathlib

/-!
Verification of the upload pipeline of the gemini-cli-deep-research
repository: name classification (mimeTypes.ts), directory scanning,
smart sync, the bounded batch scheduler (FileUploader.ts), the
operation store and progress reducer (index.ts, UploadOperationManager.ts,
WorkspaceConfig.ts).  Each TypeScript function is shallowly embedded as a
pure Lean function; collaborator calls (file system, network transfer,
remote listing) are abstracted as parameters of an explicit environment.
-/

namespace DeepResearch

/-! ## Path utilities: Node.js posix `path.basename` and `path.extname` -/

/-- One character step of the base-name scan: a slash resets the
accumulator, any other character extends it. -/
def basenameStep (acc : List Char) (c : Char) : List Char :=
  if c = '/' then [] else acc ++ [c]

/-- Characters of the base name of a path: everything after the last
slash.  Models Node `path.basename` for paths without a trailing slash. -/
def basenameChars (s : List Char) : List Char :=
  s.foldl basenameStep []

/-- Index of the last occurrence of a dot in a list of characters. -/
def lastDotIndex (b : List Char) : Option Nat :=
  (List.range b.length).foldl
    (fun acc i => if b.get? i = some '.' then some i else acc) none

/-- Extension of a base name, following Node `path.extname`: the suffix
from the last dot, except that a dot in first position, no dot at all,
and the special name consisting of exactly two dots all yield the empty
extension. -/
def extnameOfBase (b : List Char) : List Char :=
  match lastDotIndex b with
  | none => []
  | some i =>
    if i = 0 then []
    else if b = ['.', '.'] then []
    else b.drop i

/-- Node posix `path.basename` on strings. -/
def jsBasename (p : String) : String :=
  ⟨basenameChars p.toList⟩

/-- Node posix `path.extname` on strings. -/
def jsExtname (p : String) : String :=
  ⟨extnameOfBase (basenameChars p.toList)⟩

/-- JavaScript `String.prototype.toLowerCase`, restricted to the
character-wise lowering that is exercised by ASCII extensions. -/
def lowerStr (s : String) : String :=
  ⟨s.toList.map Char.toLower⟩

/-! ## mimeTypes.ts: the verified allow-list and the text fallback set -/

/-- Embedding of `EXTENSION_TO_MIME` from mimeTypes.ts: the validated
mapping of file extensions to MIME types (36 entries). -/
def EXTENSION_TO_MIME : List (String × String) :=
  [(".pdf", "application/pdf"),
   (".xml", "application/xml"),
   (".txt", "text/plain"),
   (".text", "text/plain"),
   (".log", "text/plain"),
   (".out", "text/plain"),
   (".env", "text/plain"),
   (".gitignore", "text/plain"),
   (".gitattributes", "text/plain"),
   (".dockerignore", "text/plain"),
   (".html", "text/html"),
   (".htm", "text/html"),
   (".md", "text/markdown"),
   (".markdown", "text/markdown"),
   (".mdown", "text/markdown"),
   (".mkd", "text/markdown"),
   (".c", "text/x-c"),
   (".h", "text/x-c"),
   (".java", "text/x-java"),
   (".kt", "text/x-kotlin"),
   (".kts", "text/x-kotlin"),
   (".go", "text/x-go"),
   (".py", "text/x-python"),
   (".pyw", "text/x-python"),
   (".pyx", "text/x-python"),
   (".pyi", "text/x-python"),
   (".pl", "text/x-perl"),
   (".pm", "text/x-perl"),
   (".t", "text/x-perl"),
   (".pod", "text/x-perl"),
   (".lua", "text/x-lua"),
   (".erl", "text/x-erlang"),
   (".hrl", "text/x-erlang"),
   (".tcl", "text/x-tcl"),
   (".bib", "text/x-bibtex"),
   (".diff", "text/x-diff")]

/-- Embedding of `TEXT_FALLBACK_EXTENSIONS` from mimeTypes.ts: extensions
that fall back to text/plain when not in the verified allow-list. -/
def TEXT_FALLBACK_EXTENSIONS : List String :=
  [".js", ".mjs", ".cjs", ".jsx",
   ".ts", ".mts", ".cts", ".tsx", ".d.ts",
   ".json", ".jsonc", ".json5",
   ".css", ".scss", ".sass", ".less", ".styl",
   ".vue", ".svelte", ".astro",
   ".sh", ".bash", ".zsh", ".fish", ".ksh", ".csh", ".tcsh",
   ".bat", ".cmd", ".ps1", ".psm1",
   ".yaml", ".yml", ".toml", ".ini", ".cfg", ".conf",
   ".properties", ".editorconfig", ".prettierrc", ".eslintrc",
   ".babelrc", ".npmrc", ".nvmrc", ".browserslistrc",
   ".makefile", ".cmake", ".gradle", ".sbt",
   ".gemfile", ".podfile", ".cartfile",
   ".rb", ".rake", ".gemspec",
   ".php", ".phtml",
   ".rs", ".rlib",
   ".swift",
   ".scala",
   ".clj", ".cljs", ".cljc", ".edn",
   ".ex", ".exs",
   ".hs", ".lhs",
   ".ml", ".mli",
   ".fs", ".fsx", ".fsi",
   ".r", ".rmd",
   ".jl",
   ".nim", ".nimble",
   ".zig",
   ".v", ".sv", ".svh",
   ".vhd", ".vhdl",
   ".asm", ".s",
   ".f", ".f90", ".f95", ".for",
   ".pas", ".pp",
   ".d",
   ".ada", ".adb", ".ads",
   ".cob", ".cbl",
   ".pro", ".P",
   ".lisp", ".lsp", ".cl",
   ".scm", ".ss", ".rkt",
   ".groovy", ".gvy",
   ".dart",
   ".cr",
   ".coffee",
   ".elm",
   ".purs",
   ".hx",
   ".sol",
   ".rst", ".asciidoc", ".adoc", ".asc",
   ".tex", ".latex", ".sty", ".cls",
   ".csv", ".tsv",
   ".sql",
   ".graphql", ".gql",
   ".lock", ".sum",
   ".dockerfile",
   ".patch",
   ".awk",
   ".sed",
   ".vim", ".vimrc",
   ".tmux.conf",
   ".htaccess", ".htpasswd",
   ".nix"]

/-- Embedding of `FILE_SIZE_LIMITS.MAX_FILE_SIZE_BYTES` (100 MiB). -/
def MAX_FILE_SIZE_BYTES : Nat := 100 * 1024 * 1024

/-- Result of a successful classification: the MIME type and whether the
text/plain fallback was used. -/
structure MimeResult where
  mimeType : String
  isFallback : Bool
deriving DecidableEq, Repr

/-- Embedding of `getMimeTypeWithFallback` from mimeTypes.ts.  The
extension of the path is lowered, looked up in the verified allow-list
first, then in the fallback set; otherwise no classification. -/
def getMimeTypeWithFallback (filePath : String) : Option MimeResult :=
  let ext := lowerStr (jsExtname filePath)
  match EXTENSION_TO_MIME.lookup ext with
  | some m => some ⟨m, false⟩
  | none =>
    if TEXT_FALLBACK_EXTENSIONS.contains ext then
      some ⟨"text/plain", true⟩
    else
      none

/-! ## Directory scanning (FileUploader.uploadDirectory, getFiles) -/

/-- The hidden-entry test `name.startsWith('.')`: whether the first
character is a dot, computed on the character list (the byte-based
`String.startsWith` is opaque to the kernel; on entry names the two
agree). -/
def startsWithDot (s : String) : Bool :=
  match s.toList with
  | [] => false
  | c :: _ => c = '.'

/-- A file-system subtree as seen by `fs.readdirSync(dir, withFileTypes)`:
an entry is either a regular file or a directory with its own entries. -/
inductive FsEntry where
  | file (nm : String) : FsEntry
  | dir (nm : String) (children : List FsEntry) : FsEntry
deriving Repr

/-- Embedding of the inner `getFiles` closure of `uploadDirectory`: for
each entry in readdir order, recurse into directories (appending their
files where the directory occurs) and collect regular files, joining
names onto the current absolute prefix with a slash. -/
def getFilesRec (pre : String) : List FsEntry → List String
  | [] => []
  | FsEntry.file nm :: rest =>
      (pre ++ "/" ++ nm) :: getFilesRec pre rest
  | FsEntry.dir nm children :: rest =>
      getFilesRec (pre ++ "/" ++ nm) children ++ getFilesRec pre rest

/-- Embedding of the file enumeration of `uploadDirectory`:
`getFiles(absoluteDirPath).filter(f => not basename(f).startsWith('.'))`. -/
def scanFiles (root : String) (entries : List FsEntry) : List String :=
  (getFilesRec root entries).filter (fun f => !startsWithDot (jsBasename f))

/-- Modelled from the spec: `scan(root)` per section 4.3, "recursively
descending directories, excluding entries whose base name starts with a
dot (hidden files and directories pruned entirely, including their
subtrees)".  Hidden directories contribute nothing at all. -/
def scanSpecPruned (pre : String) : List FsEntry → List String
  | [] => []
  | FsEntry.file nm :: rest =>
      (if startsWithDot nm then [] else [pre ++ "/" ++ nm])
        ++ scanSpecPruned pre rest
  | FsEntry.dir nm children :: rest =>
      (if startsWithDot nm then []
       else scanSpecPruned (pre ++ "/" ++ nm) children)
        ++ scanSpecPruned pre rest

/-- Modelled from the spec, amended: the enumeration keeps every file
whose own base name does not start with a dot, descending into every
directory including hidden ones. -/
def scanSpecKeepHiddenDirs (pre : String) : List FsEntry → List String
  | [] => []
  | FsEntry.file nm :: rest =>
      (if startsWithDot nm then [] else [pre ++ "/" ++ nm])
        ++ scanSpecKeepHiddenDirs pre rest
  | FsEntry.dir nm children :: rest =>
      scanSpecKeepHiddenDirs (pre ++ "/" ++ nm) children
        ++ scanSpecKeepHiddenDirs pre rest

mutual

/-- Entry names contain no slash (true of every name returned by
`readdirSync`); needed to relate `path.basename` of a joined path to the
entry name it was joined from. -/
def entryNamesOk : FsEntry → Bool
  | FsEntry.file nm => !nm.toList.contains '/'
  | FsEntry.dir nm children => !nm.toList.contains '/' && entriesNamesOk children

/-- All entry names in a list of subtrees contain no slash. -/
def entriesNamesOk : List FsEntry → Bool
  | [] => true
  | e :: rest => entryNamesOk e && entriesNamesOk rest

end

/-! ## Collaborator environment and remote listing (getExistingFileHashes) -/

/-- Metadata of a local file as observed through `fs.statSync` (size) and
`getFileHash` (SHA-256 content digest, abstracted as a string). -/
structure FileMeta where
  size : Nat
  hash : String
deriving DecidableEq, Repr

/-- Embedding of the `ExistingFileInfo` interface of FileUploader.ts. -/
structure ExistingFileInfo where
  hash : String
  documentName : String
deriving DecidableEq, Repr

/-- One element of a remote document's `customMetadata` array; both the
key and the string value may be absent. -/
structure MetaEntry where
  key : Option String
  stringValue : Option String
deriving DecidableEq, Repr

/-- A remote document as returned by `listDocuments`: the resource name
and the metadata array may each be absent. -/
structure DocumentInfo where
  name : Option String
  customMetadata : Option (List MetaEntry)
deriving DecidableEq, Repr

/-- The collaborators of the uploader, abstracted: the local file system
(stat size and content digest per path), the transfer call
`uploadToFileSearchStore` (which either returns an operation handle or
rejects with an error message), and the remote listing used by smart
sync (which either returns documents or rejects). -/
structure Env where
  files : String → FileMeta
  transfer : String → Except String String
  listing : Except String (List DocumentInfo)

/-- JavaScript truthiness of an optional string: `undefined` and the
empty string are falsy. -/
def truthyStr : Option String → Option String
  | some s => if s = "" then none else some s
  | none => none

/-- One step of the metadata loop of `getExistingFileHashes`: entries
without a string key are skipped; a `path` entry replaces the path
accumulator, a `hash` entry the hash accumulator. -/
def metaStep (acc : Option String × Option String) (meta : MetaEntry) :
    Option String × Option String :=
  match meta.key with
  | none => acc
  | some k =>
    if k = "path" then (meta.stringValue, acc.2)
    else if k = "hash" then (acc.1, meta.stringValue)
    else acc

/-- The inner metadata loop of `getExistingFileHashes`: the last entry
with key `path` and the last with key `hash` win. -/
def extractPathHash (metadata : List MetaEntry) : Option String × Option String :=
  metadata.foldl metaStep (none, none)

/-- The per-document extraction of `getExistingFileHashes`: a document
contributes a map entry only when path, hash and document name are all
present and truthy. -/
def extractRecord (doc : DocumentInfo) : Option (String × ExistingFileInfo) :=
  let ph := extractPathHash (doc.customMetadata.getD [])
  match truthyStr ph.1, truthyStr ph.2, truthyStr doc.name with
  | some fp, some h, some nm => some (fp, ⟨h, nm⟩)
  | _, _, _ => none

/-- Inserting one document into the hash map under construction:
well-formed documents are prepended (later documents overwrite earlier
ones for the same path under first-match lookup, the `Map.set`
semantics), malformed ones contribute nothing. -/
def insertDoc (m : List (String × ExistingFileInfo)) (doc : DocumentInfo) :
    List (String × ExistingFileInfo) :=
  match extractRecord doc with
  | some kv => kv :: m
  | none => m

/-- Embedding of `FileUploader.getExistingFileHashes`: a failing listing
call is caught and yields the empty map; otherwise each listed document
is folded into the map. -/
def getExistingFileHashes (listing : Except String (List DocumentInfo)) :
    List (String × ExistingFileInfo) :=
  match listing with
  | Except.error _ => []
  | Except.ok docs => docs.foldl insertDoc []

/-! ## Progress events and percentages -/

/-- Math.round of `num / den` for natural operands: the floor of
`num / den + 1 / 2`, computed exactly over the integers. -/
def jsRound (num den : Nat) : Nat := (2 * num + den) / (2 * den)

/-- The percentage attached to augmented progress events:
`Math.round(((completedFiles + skippedFiles) / totalFiles) * 100)`. -/
def pctOf (completed skipped total : Nat) : Nat :=
  jsRound ((completed + skipped) * 100) total

/-- The progress events of mimeTypes.ts `UploadProgressEvent`, with the
fields that `uploadDirectory` attaches when augmenting per-file events
(current file, one-based index, totals, running counters, percentage). -/
inductive Event where
  | start (totalFiles percentage : Nat)
  | file_start (currentFile : String)
      (currentFileIndex totalFiles completedFiles skippedFiles percentage : Nat)
  | file_complete (currentFile : String)
      (currentFileIndex totalFiles completedFiles skippedFiles percentage : Nat)
  | file_skipped (currentFile : String)
      (currentFileIndex totalFiles completedFiles skippedFiles percentage : Nat)
  | file_error (currentFile errMsg : String)
      (currentFileIndex totalFiles completedFiles skippedFiles percentage : Nat)
  | complete (totalFiles completedFiles skippedFiles failedFiles percentage : Nat)
deriving DecidableEq, Repr

/-- An event concerning a single file, as opposed to the job-level
`start` and `complete` events. -/
def Event.isPerFile : Event → Bool
  | Event.start _ _ => false
  | Event.complete _ _ _ _ _ => false
  | _ => true

/-! ## Per-file pipeline (FileUploader.uploadFile) -/

/-- The error taxonomy of mimeTypes.ts, with the diagnostic payloads the
constructors receive. -/
inductive UploadError where
  | unsupportedFileType (path extension : String)
  | fileSizeExceeded (path : String) (sizeBytes limitBytes : Nat)
  | fileUploadFailed (path cause : String)
deriving DecidableEq, Repr

/-- Settlement of one per-file task of a directory batch: skipped by
smart sync, fulfilled with a transfer handle, or rejected with an
error. -/
inductive FileOutcome where
  | skippedOut (relPath : String)
  | uploaded (op : String)
  | failed (err : UploadError)
deriving DecidableEq, Repr

/-- Instrumented state threaded through a directory upload: the three
counters and result list of `uploadDirectory`, the emitted event stream,
and the observed collaborator calls (content digests, smart-sync skip
test digests, transfer calls). -/
structure DirState where
  completedFiles : Nat
  skippedFiles : Nat
  failedFiles : Nat
  results : List String
  events : List Event
  hashCalls : List String
  skipHashCalls : List String
  transferCalls : List String
deriving DecidableEq, Repr

/-- Appends an emitted event to the captured stream. -/
def emit (st : DirState) (e : Event) : DirState :=
  { st with events := st.events ++ [e] }

/-- Model of `path.relative(dir, f)` for the paths produced by the
scanner, which always have the shape `dir ++ "/" ++ rel`: drops the
directory prefix and the joining slash. -/
def relativeTo (dir f : String) : String :=
  ⟨f.toList.drop (dir.toList.length + 1)⟩

/-- Embedding of `FileUploader.uploadFile` as invoked per file by
`uploadDirectory` (events already augmented with index, totals, counters
and percentage).  Size validation runs first, then classification, then
the content digest, then the transfer; a transfer rejection emits
`file_error` and rejects with the wrapping upload error, while size and
classification rejections reject before any event is emitted. -/
def uploadFileModel (env : Env) (st : DirState) (filePath : String)
    (fileIndex total : Nat) : DirState × FileOutcome :=
  let fileName := jsBasename filePath
  let stats := env.files filePath
  if stats.size > MAX_FILE_SIZE_BYTES then
    (st, FileOutcome.failed
      (UploadError.fileSizeExceeded filePath stats.size MAX_FILE_SIZE_BYTES))
  else
    match getMimeTypeWithFallback filePath with
    | none =>
        (st, FileOutcome.failed
          (UploadError.unsupportedFileType filePath (lowerStr (jsExtname filePath))))
    | some _ =>
        let st1 := { st with hashCalls := st.hashCalls ++ [filePath] }
        let st2 := emit st1 (Event.file_start fileName fileIndex total
          st1.completedFiles st1.skippedFiles
          (pctOf st1.completedFiles st1.skippedFiles total))
        match env.transfer filePath with
        | Except.ok op =>
            let st3 := { st2 with
              transferCalls := st2.transferCalls ++ [filePath],
              completedFiles := st2.completedFiles + 1 }
            let st4 := emit st3 (Event.file_complete fileName fileIndex total
              st3.completedFiles st3.skippedFiles
              (pctOf st3.completedFiles st3.skippedFiles total))
            (st4, FileOutcome.uploaded op)
        | Except.error e =>
            let st3 := { st2 with transferCalls := st2.transferCalls ++ [filePath] }
            let st4 := emit st3 (Event.file_error fileName e fileIndex total
              st3.completedFiles st3.skippedFiles
              (pctOf st3.completedFiles st3.skippedFiles total))
            (st4, FileOutcome.failed (UploadError.fileUploadFailed filePath e))

/-- One per-file task of the batch map in `uploadDirectory`: with smart
sync enabled and a mapping entry present for the relative path, the
local digest is computed and an equal hash skips the file (emitting
`file_skipped` and issuing no transfer); otherwise the file goes through
`uploadFile`. -/
def processFile (env : Env) (smartSync : Bool)
    (existing : List (String × ExistingFileInfo)) (dirPath : String)
    (total : Nat) (st : DirState) (filePath : String) (fileIndex : Nat) :
    DirState × FileOutcome :=
  let relativePath := relativeTo dirPath filePath
  let fileName := jsBasename filePath
  if smartSync then
    match existing.lookup relativePath with
    | some info =>
        let localHash := (env.files filePath).hash
        let st1 := { st with
          hashCalls := st.hashCalls ++ [filePath],
          skipHashCalls := st.skipHashCalls ++ [filePath] }
        if localHash = info.hash then
          let st2 := { st1 with skippedFiles := st1.skippedFiles + 1 }
          let st3 := emit st2 (Event.file_skipped fileName fileIndex total
            st2.completedFiles st2.skippedFiles
            (pctOf st2.completedFiles st2.skippedFiles total))
          (st3, FileOutcome.skippedOut relativePath)
        else
          uploadFileModel env st1 filePath fileIndex total
    | none => uploadFileModel env st filePath fileIndex total
  else
    uploadFileModel env st filePath fileIndex total

/-! ## Batch scheduling (FileUploader.uploadDirectory) -/

/-- The result-tracking loop over `Promise.allSettled` outcomes:
fulfilled non-skipped values are pushed onto the result list, skipped
values are dropped, and each rejection increments `failedFiles`. -/
def settleBatch (st : DirState) (outs : List FileOutcome) : DirState :=
  match outs with
  | [] => st
  | FileOutcome.skippedOut _ :: rest => settleBatch st rest
  | FileOutcome.uploaded op :: rest =>
      settleBatch { st with results := st.results ++ [op] } rest
  | FileOutcome.failed _ :: rest =>
      settleBatch { st with failedFiles := st.failedFiles + 1 } rest
termination_by structural outs

/-- The per-batch map of `uploadDirectory`: each file of the batch is
processed (the single JavaScript thread interleaves the tasks of a batch
only at their asynchronous calls, so the synchronous sections run
atomically and the batch is modelled by sequencing them), producing the
list of settlements in batch order.  The second argument is the absolute
index of the first file of the batch, making `fileIndex` one-based. -/
def processBatch (env : Env) (smartSync : Bool)
    (existing : List (String × ExistingFileInfo)) (dirPath : String)
    (total : Nat) (st : DirState) (i : Nat) (b : List String) :
    DirState × List FileOutcome :=
  match b with
  | [] => (st, [])
  | f :: fs =>
      let p := processFile env smartSync existing dirPath total st f (i + 1)
      let r := processBatch env smartSync existing dirPath total p.1 (i + 1) fs
      (r.1, p.2 :: r.2)
termination_by structural b

/-- The batch loop of `uploadDirectory`: each batch is fully processed
and settled before the next batch starts. -/
def runBatches (env : Env) (smartSync : Bool)
    (existing : List (String × ExistingFileInfo)) (dirPath : String)
    (total : Nat) (st : DirState) (i : Nat) (bs : List (List String)) :
    DirState :=
  match bs with
  | [] => st
  | b :: rest =>
      let p := processBatch env smartSync existing dirPath total st i b
      runBatches env smartSync existing dirPath total
        (settleBatch p.1 p.2) (i + b.length) rest
termination_by structural bs

/-- One step of the batching for-loop with explicit fuel.  With a
positive batch size and fuel at least the list length this computes the
contiguous slices `allFiles.slice(i, i + maxConcurrent)`; with batch
size zero the JavaScript loop never terminates, which the total model
leaves out of scope (the claims assume the positive default). -/
def chunkAux {α : Type} (C : Nat) : Nat → List α → List (List α)
  | _, [] => []
  | 0, _ :: _ => []
  | fuel + 1, x :: xs => (x :: xs).take C :: chunkAux C fuel ((x :: xs).drop C)

/-- The contiguous batches of size `C` of a list. -/
def chunkList {α : Type} (C : Nat) (l : List α) : List (List α) :=
  chunkAux C l.length l

/-- The state of a directory upload before any batch runs: counters at
zero and the `start` event (total file count, percentage zero) already
emitted. -/
def initDirState (total : Nat) : DirState :=
  { completedFiles := 0, skippedFiles := 0, failedFiles := 0, results := [],
    events := [Event.start total 0], hashCalls := [], skipHashCalls := [],
    transferCalls := [] }

/-- Embedding of `FileUploader.uploadDirectory` over an already
enumerated file list: fetch remote hashes when smart sync is on, emit
`start`, run the batches, then emit `complete` with the final
counters. -/
def uploadDirectoryModel (env : Env) (dirPath : String) (allFiles : List String)
    (maxConcurrent : Nat) (smartSync : Bool) : DirState :=
  let existing := if smartSync then getExistingFileHashes env.listing else []
  let st := runBatches env smartSync existing dirPath allFiles.length
    (initDirState allFiles.length) 0 (chunkList maxConcurrent allFiles)
  { st with events := st.events ++
      [Event.complete allFiles.length st.completedFiles st.skippedFiles
        st.failedFiles 100] }

/-! ## Operation records (WorkspaceConfig.ts, UploadOperationManager.ts) -/

/-- The status enumeration of the `UploadOperationSchema`. -/
inductive OpStatus where
  | pending
  | in_progress
  | completed
  | failed
deriving DecidableEq, Repr

/-- One element of `failedFilesList`: the failing file and its error
message. -/
structure FailedFile where
  file : String
  error : String
deriving DecidableEq, Repr

/-- The persisted `UploadOperation` record. -/
structure UploadOperation where
  id : String
  status : OpStatus
  path : String
  storeName : String
  smartSync : Bool
  totalFiles : Nat
  completedFiles : Nat
  skippedFiles : Nat
  failedFiles : Nat
  failedFilesList : List FailedFile
  startedAt : String
  completedAt : Option String
  error : Option String
deriving DecidableEq, Repr

/-- Embedding of `UploadOperationManager.createOperation` (totalFiles
defaults to zero; the generated UUID and the timestamp are passed in). -/
def createOperation (id path storeName : String) (smartSync : Bool)
    (startedAt : String) : UploadOperation :=
  { id := id, status := OpStatus.pending, path := path, storeName := storeName,
    smartSync := smartSync, totalFiles := 0, completedFiles := 0,
    skippedFiles := 0, failedFiles := 0, failedFilesList := [],
    startedAt := startedAt, completedAt := none, error := none }

/-- Embedding of `UploadOperationManager.markInProgress`. -/
def markInProgress (op : UploadOperation) (totalFiles : Nat) : UploadOperation :=
  { op with status := OpStatus.in_progress, totalFiles := totalFiles }

/-- Embedding of `UploadOperationManager.updateProgress`. -/
def updateProgress (op : UploadOperation) (completed skipped failed : Nat) :
    UploadOperation :=
  { op with
    completedFiles := completed, skippedFiles := skipped,
    failedFiles := failed }

/-- Embedding of `UploadOperationManager.addFailedFile`: appends to
`failedFilesList` and sets the `failedFiles` counter to the new list
length. -/
def addFailedFile (op : UploadOperation) (file errMsg : String) : UploadOperation :=
  let l := op.failedFilesList ++ [{ file := file, error := errMsg }]
  { op with failedFiles := l.length, failedFilesList := l }

/-- Embedding of `UploadOperationManager.markCompleted`. -/
def markCompleted (op : UploadOperation) (completedAt : String) : UploadOperation :=
  { op with status := OpStatus.completed, completedAt := some completedAt }

/-- Embedding of `UploadOperationManager.markFailed`. -/
def markFailed (op : UploadOperation) (errMsg completedAt : String) : UploadOperation :=
  { op with
    status := OpStatus.failed, error := some errMsg,
    completedAt := some completedAt }

/-! ## The onProgress reducer of the file_search_upload tool (index.ts) -/

/-- The reducer state of the background job in `file_search_upload`: the
persisted record plus the three local counter variables captured by the
`onProgress` closure. -/
structure ReducerState where
  op : UploadOperation
  completedFiles : Nat
  skippedFiles : Nat
  failedFiles : Nat
deriving DecidableEq, Repr

/-- Embedding of the `onProgress` reducer of `file_search_upload`:
`start` marks the record in progress with the reported total;
`file_complete` and `file_skipped` refresh the matching local counter
from the event and persist all three; `file_error` increments the local
failure counter and appends to the record's failed list; `file_start`
and `complete` only log. -/
def reduceEvent (rs : ReducerState) : Event → ReducerState
  | Event.start total _ =>
      { rs with op := markInProgress rs.op total }
  | Event.file_start _ _ _ _ _ _ => rs
  | Event.file_complete _ _ _ c _ _ =>
      { rs with
        completedFiles := c,
        op := updateProgress rs.op c rs.skippedFiles rs.failedFiles }
  | Event.file_skipped _ _ _ _ s _ =>
      { rs with
        skippedFiles := s,
        op := updateProgress rs.op rs.completedFiles s rs.failedFiles }
  | Event.file_error f msg _ _ _ _ _ =>
      { rs with
        failedFiles := rs.failedFiles + 1,
        op := addFailedFile rs.op f msg }
  | Event.complete _ _ _ _ _ => rs

/-- The background job of `file_search_upload` on the directory path:
reduce every progress event into the record, then mark it completed. -/
def runJob (op0 : UploadOperation) (events : List Event)
    (completedAt : String) : UploadOperation :=
  markCompleted ((events.foldl reduceEvent
    { op := op0, completedFiles := 0, skippedFiles := 0, failedFiles := 0 }).op)
    completedAt

/-- The `FailedFile` entries that the reducer collects from a stream:
one per `file_error` event, in order. -/
def errorFiles : List Event → List FailedFile
  | [] => []
  | Event.file_error f msg _ _ _ _ _ :: rest =>
      { file := f, error := msg } :: errorFiles rest
  | _ :: rest => errorFiles rest

/-! ## The file_search_upload_status handler (index.ts) -/

/-- The `progress` object of the status response. -/
structure ProgressInfo where
  totalFiles : Nat
  completedFiles : Nat
  skippedFiles : Nat
  failedFiles : Nat
  percentage : Nat
deriving DecidableEq, Repr

/-- The `statusInfo` object returned by `file_search_upload_status`;
`failedFilesList` is an optional field. -/
structure StatusInfo where
  operationId : String
  status : OpStatus
  path : String
  storeName : String
  smartSync : Bool
  progress : ProgressInfo
  startedAt : String
  completedAt : Option String
  error : Option String
  failedFilesList : Option (List FailedFile)
deriving DecidableEq, Repr

/-- Embedding of the `file_search_upload_status` handler: an unknown
operation ID yields an error result; otherwise the record's fields are
returned, the percentage is the rounded completed-plus-skipped share
when the total is positive and zero otherwise, and `failedFilesList` is
attached only when non-empty. -/
def uploadStatusQuery (store : List (String × UploadOperation))
    (operationId : String) : Except String StatusInfo :=
  match store.lookup operationId with
  | none => Except.error ("Operation not found: " ++ operationId)
  | some op =>
      let percentage :=
        if op.totalFiles > 0 then
          jsRound ((op.completedFiles + op.skippedFiles) * 100) op.totalFiles
        else 0
      Except.ok
        { operationId := op.id, status := op.status, path := op.path,
          storeName := op.storeName, smartSync := op.smartSync,
          progress :=
            { totalFiles := op.totalFiles, completedFiles := op.completedFiles,
              skippedFiles := op.skippedFiles, failedFiles := op.failedFiles,
              percentage := percentage },
          startedAt := op.startedAt, completedAt := op.completedAt,
          error := op.error,
          failedFilesList :=
            if op.failedFilesList.length > 0 then some op.failedFilesList
            else none }

/-! ## WorkspaceConfigManager.load -/

/-- The persisted workspace state. -/
structure WorkspaceConfig where
  researchIds : List String
  fileSearchStores : List (String × String)
  uploadOperations : List (String × UploadOperation)
deriving DecidableEq, Repr

/-- The default configuration created by `load`. -/
def defaultConfig : WorkspaceConfig :=
  { researchIds := [], fileSearchStores := [], uploadOperations := [] }

/-- Outcome of reading and parsing the state file: missing, unreadable
or failing JSON or schema validation, or parsed to a configuration. -/
inductive ConfigRead where
  | missing
  | unparsable (reason : String)
  | parsed (cfg : WorkspaceConfig)

/-- Embedding of `WorkspaceConfigManager.load`: a missing file saves and
returns the default configuration; a read, JSON-parse or schema failure
is caught and the default configuration is returned without saving;
otherwise the parsed configuration is returned.  The boolean records
whether the default was written back to disk. -/
def loadModel : ConfigRead → WorkspaceConfig × Bool
  | ConfigRead.missing => (defaultConfig, true)
  | ConfigRead.unparsable _ => (defaultConfig, false)
  | ConfigRead.parsed cfg => (cfg, false)

/-! ## Outcome counting and validation predicates used by the theorems -/

/-- One when the outcome is a successful upload. -/
def uplOf : FileOutcome → Nat
  | FileOutcome.uploaded _ => 1
  | _ => 0

/-- One when the outcome is a smart-sync skip. -/
def skipOf : FileOutcome → Nat
  | FileOutcome.skippedOut _ => 1
  | _ => 0

/-- One when the outcome is a per-file failure. -/
def failOf : FileOutcome → Nat
  | FileOutcome.failed _ => 1
  | _ => 0

/-- Number of successful uploads among a batch's settlements. -/
def uplCount (outs : List FileOutcome) : Nat := (outs.map uplOf).sum

/-- Number of smart-sync skips among a batch's settlements. -/
def skipCount (outs : List FileOutcome) : Nat := (outs.map skipOf).sum

/-- Number of failures among a batch's settlements. -/
def failCount (outs : List FileOutcome) : Nat := (outs.map failOf).sum

/-- The transfer handles of the fulfilled, non-skipped settlements, in
order: exactly what the result-tracking loop pushes. -/
def uploadedOps : List FileOutcome → List String
  | [] => []
  | FileOutcome.uploaded op :: rest => op :: uploadedOps rest
  | _ :: rest => uploadedOps rest

/-- A file passes the pre-transfer validation of `uploadFile`: its size
is within the limit and its extension classifies. -/
def passesValidation (env : Env) (f : String) : Bool :=
  if (env.files f).size > MAX_FILE_SIZE_BYTES then false
  else (getMimeTypeWithFallback f).isSome

/-! ## Concrete environments used by witnesses and counterexamples -/

/-- Environment in which every file is ten bytes with digest h, every
transfer succeeds, and the remote listing is empty. -/
def envAllOk : Env :=
  { files := fun _ => { size := 10, hash := "h" },
    transfer := fun p => Except.ok ("op-" ++ p),
    listing := Except.ok [] }

/-- Environment in which the transfer of `d/b.txt` rejects and every
other transfer succeeds. -/
def envOneFail : Env :=
  { files := fun _ => { size := 10, hash := "h" },
    transfer := fun p =>
      if p = "d/b.txt" then Except.error "boom" else Except.ok ("op-" ++ p),
    listing := Except.ok [] }

/-- Environment whose remote listing knows `same.txt` with the digest
the local file has and `diff.txt` with a different digest. -/
def envSmartKnown : Env :=
  { files := fun p =>
      { size := 10, hash := if p = "d/same.txt" then "H1" else "H2" },
    transfer := fun p => Except.ok ("op-" ++ p),
    listing := Except.ok
      [{ name := some "documents/1",
         customMetadata := some
           [{ key := some "path", stringValue := some "same.txt" },
            { key := some "hash", stringValue := some "H1" }] },
       { name := some "documents/2",
         customMetadata := some
           [{ key := some "path", stringValue := some "diff.txt" },
            { key := some "hash", stringValue := some "H9" }] }] }

/-- Environment in which every file is one byte over the size limit. -/
def envOversize : Env :=
  { files := fun _ => { size := MAX_FILE_SIZE_BYTES + 1, hash := "h" },
    transfer := fun p => Except.ok ("op-" ++ p),
    listing := Except.ok [] }

/-- A concrete persisted record used by the status-query witness. -/
def opWitness : UploadOperation :=
  { id := "id1", status := OpStatus.in_progress, path := "d", storeName := "s",
    smartSync := false, totalFiles := 3, completedFiles := 1, skippedFiles := 1,
    failedFiles := 1, failedFilesList := [{ file := "b.txt", error := "boom" }],
    startedAt := "t0", completedAt := none, error := none }

/-! ## Theorems -/

/-- C3: classification is a pure, case-insensitive function of the
path's extension: an extension in the verified allow-list yields that
mapping's MIME type with `isFallback = false`; an extension only in the
fallback set yields text/plain with `isFallback = true`; any other
extension yields no classification; and two paths with the same lowered
extension classify identically. -/
theorem c3_classification (p : String) :
    (∀ m, EXTENSION_TO_MIME.lookup (lowerStr (jsExtname p)) = some m →
      getMimeTypeWithFallback p = some { mimeType := m, isFallback := false }) ∧
    (EXTENSION_TO_MIME.lookup (lowerStr (jsExtname p)) = none →
      TEXT_FALLBACK_EXTENSIONS.contains (lowerStr (jsExtname p)) = true →
      getMimeTypeWithFallback p = some { mimeType := "text/plain", isFallback := true }) ∧
    (EXTENSION_TO_MIME.lookup (lowerStr (jsExtname p)) = none →
      TEXT_FALLBACK_EXTENSIONS.contains (lowerStr (jsExtname p)) = false →
      getMimeTypeWithFallback p = none) ∧
    (∀ q, lowerStr (jsExtname p) = lowerStr (jsExtname q) →
      getMimeTypeWithFallback p = getMimeTypeWithFallback q) := by
  refine ⟨?_, ?_, ?_, ?_⟩
  · intro m h
    simp [getMimeTypeWithFallback, h]
  · intro h1 h2
    have h2m := (by simpa using h2 : lowerStr (jsExtname p) ∈ TEXT_FALLBACK_EXTENSIONS)
    simp [getMimeTypeWithFallback, h1, h2m]
  · intro h1 h2
    have h2m := (by simpa using h2 : lowerStr (jsExtname p) ∉ TEXT_FALLBACK_EXTENSIONS)
    simp [getMimeTypeWithFallback, h1, h2m]
  · intro q h
    simp only [getMimeTypeWithFallback]
    rw [h]

/-- Witness for C3 at a concrete mixed-case path in the allow-list. -/
theorem c3_classification_witness :
    getMimeTypeWithFallback "doc.PDF" =
      some { mimeType := "application/pdf", isFallback := false } :=
  (c3_classification "doc.PDF").1 "application/pdf" (by decide)

/-- C10: loading the persisted workspace state never throws: a missing
file writes and returns the default configuration; an unreadable,
non-JSON or schema-invalid file yields the default configuration
(discarding all recorded upload operations) without writing; a valid
file yields its parsed configuration. -/
theorem c10_load_defaults :
    loadModel ConfigRead.missing = (defaultConfig, true) ∧
    (∀ reason, loadModel (ConfigRead.unparsable reason) = (defaultConfig, false) ∧
      (loadModel (ConfigRead.unparsable reason)).1.uploadOperations = []) ∧
    (∀ cfg, loadModel (ConfigRead.parsed cfg) = (cfg, false)) := by
  refine ⟨rfl, ?_, ?_⟩
  · intro reason
    exact ⟨rfl, rfl⟩
  · intro cfg
    rfl

/-- C8: a file over the size limit makes `uploadFile` reject with the
size error carrying the path, the actual size and the limit, leaving the
state untouched: in particular the content digest is never computed for
it and no event or transfer call is issued. -/
theorem c8_size_before_hash (env : Env) (st : DirState) (f : String)
    (i total : Nat) (h : (env.files f).size > MAX_FILE_SIZE_BYTES) :
    uploadFileModel env st f i total =
      (st, FileOutcome.failed (UploadError.fileSizeExceeded f
        (env.files f).size MAX_FILE_SIZE_BYTES)) ∧
    (uploadFileModel env st f i total).1.hashCalls = st.hashCalls := by
  constructor
  · simp [uploadFileModel, h]
  · simp [uploadFileModel, h]

/-- Witness for C8 at a concrete oversized file. -/
theorem c8_size_before_hash_witness :
    uploadFileModel envOversize (initDirState 1) "d/a.txt" 1 1 =
      (initDirState 1, FileOutcome.failed (UploadError.fileSizeExceeded "d/a.txt"
        (MAX_FILE_SIZE_BYTES + 1) MAX_FILE_SIZE_BYTES)) ∧
    (uploadFileModel envOversize (initDirState 1) "d/a.txt" 1 1).1.hashCalls =
      (initDirState 1).hashCalls :=
  c8_size_before_hash envOversize (initDirState 1) "d/a.txt" 1 1 (by decide)

/-- The integer computed by `jsRound` is the round-half-up of the exact
rational quotient, the semantics of `Math.round` on nonnegative
arguments. -/
theorem jsRound_eq_round (num den : Nat) (hden : 0 < den) :
    (jsRound num den : ℤ) = round ((num : ℚ) / den) := by
  have hden' : ((den : ℚ)) ≠ 0 := by
    exact_mod_cast hden.ne'
  have hq : (num : ℚ) / den + 1 / 2 =
      ((2 * num + den : ℕ) : ℚ) / ((2 * den : ℕ) : ℚ) := by
    push_cast
    field_simp
    ring
  have h1 : jsRound num den = ⌊((2 * num + den : ℕ) : ℚ) / ((2 * den : ℕ) : ℚ)⌋₊ :=
    (Nat.floor_div_eq_div (α := ℚ) (2 * num + den) (2 * den)).symm
  rw [round_eq, hq, h1, Int.natCast_floor_eq_floor (by positivity)]

/-- C9: the status query returns the stored record's identity, lifecycle
and counter fields; the percentage is the rounded share of completed and
skipped files when the total is positive and zero otherwise; the failed
list is attached exactly when non-empty; an unknown ID yields an error
result. -/
theorem c9_status_query (store : List (String × UploadOperation)) (opId : String) :
    (store.lookup opId = none →
      uploadStatusQuery store opId =
        Except.error ("Operation not found: " ++ opId)) ∧
    (∀ op, store.lookup opId = some op →
      ∃ info, uploadStatusQuery store opId = Except.ok info ∧
        info.operationId = op.id ∧ info.status = op.status ∧
        info.path = op.path ∧ info.storeName = op.storeName ∧
        info.smartSync = op.smartSync ∧ info.startedAt = op.startedAt ∧
        info.completedAt = op.completedAt ∧ info.error = op.error ∧
        info.progress.totalFiles = op.totalFiles ∧
        info.progress.completedFiles = op.completedFiles ∧
        info.progress.skippedFiles = op.skippedFiles ∧
        info.progress.failedFiles = op.failedFiles ∧
        (0 < op.totalFiles →
          (info.progress.percentage : ℤ) =
            round (((op.completedFiles : ℚ) + op.skippedFiles) /
              op.totalFiles * 100)) ∧
        (op.totalFiles = 0 → info.progress.percentage = 0) ∧
        (op.failedFilesList ≠ [] → info.failedFilesList = some op.failedFilesList) ∧
        (op.failedFilesList = [] → info.failedFilesList = none)) := by
  constructor
  · intro h
    simp [uploadStatusQuery, h]
  · intro op h
    simp only [uploadStatusQuery, h]
    refine ⟨_, rfl, rfl, rfl, rfl, rfl, rfl, rfl, rfl, rfl, rfl, rfl, rfl, rfl,
      ?_, ?_, ?_, ?_⟩
    · intro hpos
      show ((if op.totalFiles > 0 then
        jsRound ((op.completedFiles + op.skippedFiles) * 100) op.totalFiles
        else 0 : ℕ) : ℤ) = _
      rw [if_pos hpos, jsRound_eq_round _ _ hpos]
      congr 1
      push_cast
      ring
    · intro h0
      show (if op.totalFiles > 0 then
        jsRound ((op.completedFiles + op.skippedFiles) * 100) op.totalFiles
        else 0) = 0
      simp [h0]
    · intro hne
      show (if op.failedFilesList.length > 0 then some op.failedFilesList
        else none) = some op.failedFilesList
      simp [List.length_pos.mpr hne]
    · intro he
      show (if op.failedFilesList.length > 0 then some op.failedFilesList
        else none) = none
      simp [he]

/-- Witness for C9 at a concrete store and record. -/
theorem c9_status_query_witness :
    ∃ info, uploadStatusQuery [("id1", opWitness)] "id1" = Except.ok info ∧
      info.operationId = opWitness.id ∧ info.status = opWitness.status ∧
      info.path = opWitness.path ∧ info.storeName = opWitness.storeName ∧
      info.smartSync = opWitness.smartSync ∧ info.startedAt = opWitness.startedAt ∧
      info.completedAt = opWitness.completedAt ∧ info.error = opWitness.error ∧
      info.progress.totalFiles = opWitness.totalFiles ∧
      info.progress.completedFiles = opWitness.completedFiles ∧
      info.progress.skippedFiles = opWitness.skippedFiles ∧
      info.progress.failedFiles = opWitness.failedFiles ∧
      (0 < opWitness.totalFiles →
        (info.progress.percentage : ℤ) =
          round (((opWitness.completedFiles : ℚ) + opWitness.skippedFiles) /
            opWitness.totalFiles * 100)) ∧
      (opWitness.totalFiles = 0 → info.progress.percentage = 0) ∧
      (opWitness.failedFilesList ≠ [] →
        info.failedFilesList = some opWitness.failedFilesList) ∧
      (opWitness.failedFilesList = [] → info.failedFilesList = none) :=
  (c9_status_query [("id1", opWitness)] "id1").2 opWitness (by decide)

/-- Folding the metadata loop over entries none of which carries the
`path` key leaves the path accumulator unchanged. -/
theorem metaFold_fst (md : List MetaEntry) :
    ∀ acc : Option String × Option String,
      (∀ m ∈ md, m.key ≠ some "path") →
      (md.foldl metaStep acc).1 = acc.1 := by
  induction md with
  | nil => intro acc _; rfl
  | cons m rest ih =>
      intro acc h
      have hm := h m (List.mem_cons_self m rest)
      have hrest := fun x hx => h x (List.mem_cons_of_mem m hx)
      simp only [List.foldl_cons]
      rw [ih _ hrest]
      cases hk : m.key with
      | none => simp [metaStep, hk]
      | some k =>
          have hp : ¬k = "path" := fun hkp => hm (by rw [hk, hkp])
          by_cases hh : k = "hash" <;> simp [metaStep, hk, hp, hh]

/-- Folding the metadata loop over entries none of which carries the
`hash` key leaves the hash accumulator unchanged. -/
theorem metaFold_snd (md : List MetaEntry) :
    ∀ acc : Option String × Option String,
      (∀ m ∈ md, m.key ≠ some "hash") →
      (md.foldl metaStep acc).2 = acc.2 := by
  induction md with
  | nil => intro acc _; rfl
  | cons m rest ih =>
      intro acc h
      have hm := h m (List.mem_cons_self m rest)
      have hrest := fun x hx => h x (List.mem_cons_of_mem m hx)
      simp only [List.foldl_cons]
      rw [ih _ hrest]
      cases hk : m.key with
      | none => simp [metaStep, hk]
      | some k =>
          have hh : ¬k = "hash" := fun hkh => hm (by rw [hk, hkh])
          by_cases hp : k = "path" <;> simp [metaStep, hk, hp, hh]

/-- C6: the hash fetch of the differ never propagates an error: a failed
remote listing yields the empty mapping (smart sync then treats every
file as new), and a document with no usable path metadata, no usable
hash metadata, or no document name is silently omitted from the
mapping. -/
theorem c6_differ_tolerant :
    (∀ e, getExistingFileHashes (Except.error e) = []) ∧
    (∀ docs1 docs2 d, extractRecord d = none →
      getExistingFileHashes (Except.ok (docs1 ++ d :: docs2)) =
        getExistingFileHashes (Except.ok (docs1 ++ docs2))) ∧
    (∀ d, d.name = none → extractRecord d = none) ∧
    (∀ d md, d.customMetadata = some md → (∀ m ∈ md, m.key ≠ some "path") →
      extractRecord d = none) ∧
    (∀ d md, d.customMetadata = some md → (∀ m ∈ md, m.key ≠ some "hash") →
      extractRecord d = none) := by
  refine ⟨fun e => rfl, ?_, ?_, ?_, ?_⟩
  · intro docs1 docs2 d hd
    show (docs1 ++ d :: docs2).foldl insertDoc [] =
      (docs1 ++ docs2).foldl insertDoc []
    rw [List.foldl_append, List.foldl_append, List.foldl_cons]
    have : insertDoc (docs1.foldl insertDoc []) d = docs1.foldl insertDoc [] := by
      simp [insertDoc, hd]
    rw [this]
  · intro d hd
    simp only [extractRecord, hd]
    cases truthyStr (extractPathHash (d.customMetadata.getD [])).1 <;>
      cases truthyStr (extractPathHash (d.customMetadata.getD [])).2 <;>
      rfl
  · intro d md hmd h
    have h1 : (extractPathHash (d.customMetadata.getD [])).1 = none := by
      rw [hmd]
      exact metaFold_fst md (none, none) h
    simp only [extractRecord, h1]
    cases truthyStr (extractPathHash (d.customMetadata.getD [])).2 <;>
      cases truthyStr d.name <;> rfl
  · intro d md hmd h
    have h2 : (extractPathHash (d.customMetadata.getD [])).2 = none := by
      rw [hmd]
      exact metaFold_snd md (none, none) h
    simp only [extractRecord, h2]
    cases truthyStr (extractPathHash (d.customMetadata.getD [])).1 <;>
      cases truthyStr d.name <;> rfl

/-- Witness for C6: a document whose name is missing is dropped from the
mapping built over a concrete listing. -/
theorem c6_differ_tolerant_witness :
    getExistingFileHashes (Except.ok
      [{ name := none,
         customMetadata := some
           [{ key := some "path", stringValue := some "bad.txt" },
            { key := some "hash", stringValue := some "H3" }] },
       { name := some "documents/2",
         customMetadata := some
           [{ key := some "path", stringValue := some "good.txt" },
            { key := some "hash", stringValue := some "H9" }] }]) =
    getExistingFileHashes (Except.ok
      [{ name := some "documents/2",
         customMetadata := some
           [{ key := some "path", stringValue := some "good.txt" },
            { key := some "hash", stringValue := some "H9" }] }]) :=
  (c6_differ_tolerant).2.1 []
    [{ name := some "documents/2",
       customMetadata := some
         [{ key := some "path", stringValue := some "good.txt" },
          { key := some "hash", stringValue := some "H9" }] }]
    { name := none,
      customMetadata := some
        [{ key := some "path", stringValue := some "bad.txt" },
         { key := some "hash", stringValue := some "H3" }] }
    (by decide)

/-- Folding the base-name scan over slash-free characters appends them
to the accumulator. -/
theorem basenameFold_no_slash (ys : List Char) :
    ∀ acc, (∀ c ∈ ys, c ≠ '/') → ys.foldl basenameStep acc = acc ++ ys := by
  induction ys with
  | nil => intro acc _; simp
  | cons y ys ih =>
      intro acc h
      have hy : y ≠ '/' := h y (List.mem_cons_self y ys)
      simp only [List.foldl_cons, basenameStep, if_neg hy]
      rw [ih _ (fun c hc => h c (List.mem_cons_of_mem y hc))]
      simp

/-- The base name of a path joined from a prefix and a slash-free entry
name is that entry name. -/
theorem jsBasename_join (pre nm : String) (h : ∀ c ∈ nm.toList, c ≠ '/') :
    jsBasename (pre ++ "/" ++ nm) = nm := by
  unfold jsBasename basenameChars
  have he : (pre ++ "/" ++ nm).toList = pre.toList ++ ('/' :: nm.toList) := by
    show (pre.toList ++ ['/']) ++ nm.toList = pre.toList ++ ('/' :: nm.toList)
    simp
  rw [he, List.foldl_append, List.foldl_cons]
  have hslash : basenameStep (pre.toList.foldl basenameStep []) '/' = [] := by
    simp [basenameStep]
  rw [hslash, basenameFold_no_slash nm.toList [] h]
  rfl

/-- C4 counterexample: scanning a tree whose only file lies inside a
hidden directory returns that file, while the spec's scan (hidden
directories pruned with their whole subtrees) returns nothing. -/
theorem c4_counterexample :
    scanFiles "r" [FsEntry.dir ".hidden" [FsEntry.file "a.txt"]] =
      ["r/.hidden/a.txt"] ∧
    scanSpecPruned "r" [FsEntry.dir ".hidden" [FsEntry.file "a.txt"]] = [] := by
  constructor
  · unfold scanFiles
    rw [getFilesRec, getFilesRec, getFilesRec, getFilesRec]
    decide
  · rw [scanSpecPruned, scanSpecPruned]
    decide

/-- C4 amended: the scan returns exactly the regular files reachable
from the root whose own base name does not start with a dot; hidden
directories are still descended into. -/
theorem c4_scan_amended (pre : String) (entries : List FsEntry)
    (h : entriesNamesOk entries = true) :
    scanFiles pre entries = scanSpecKeepHiddenDirs pre entries := by
  induction pre, entries using getFilesRec.induct with
  | case1 pre =>
      unfold scanFiles
      rw [getFilesRec, scanSpecKeepHiddenDirs]
      rfl
  | case2 pre nm rest ih =>
      obtain ⟨hnm, hrest⟩ : (!nm.toList.contains '/') = true ∧
          entriesNamesOk rest = true := by
        simpa [entriesNamesOk, entryNamesOk, Bool.and_eq_true] using h
      have hnoslash : ∀ c ∈ nm.toList, c ≠ '/' := by
        intro c hc hcEq
        rw [hcEq] at hc
        simp at hnm
        exact hnm hc
      have ihr := ih hrest
      unfold scanFiles at ihr ⊢
      rw [getFilesRec, List.filter_cons, scanSpecKeepHiddenDirs]
      have hb : (!startsWithDot (jsBasename (pre ++ "/" ++ nm))) =
          (!startsWithDot nm) := by
        rw [jsBasename_join pre nm hnoslash]
      rw [hb]
      cases hdot : startsWithDot nm with
      | true => simpa [hdot] using ihr
      | false => simp [hdot, ihr]
  | case3 pre nm children rest ih1 ih2 =>
      obtain ⟨hnm, hch, hrest⟩ : (!nm.toList.contains '/') = true ∧
          entriesNamesOk children = true ∧ entriesNamesOk rest = true := by
        simpa [entriesNamesOk, entryNamesOk, Bool.and_eq_true, and_assoc] using h
      have e1 := ih1 hch
      have e2 := ih2 hrest
      unfold scanFiles at e1 e2 ⊢
      rw [getFilesRec, List.filter_append, scanSpecKeepHiddenDirs]
      rw [e1, e2]

/-- Witness for C4 amended at a concrete tree containing a hidden
directory, a hidden file and two visible files. -/
theorem c4_scan_amended_witness :
    scanFiles "r" [FsEntry.dir ".git" [FsEntry.file "config"],
      FsEntry.file ".env2", FsEntry.file "a.md"] =
    scanSpecKeepHiddenDirs "r" [FsEntry.dir ".git" [FsEntry.file "config"],
      FsEntry.file ".env2", FsEntry.file "a.md"] :=
  c4_scan_amended "r" [FsEntry.dir ".git" [FsEntry.file "config"],
    FsEntry.file ".env2", FsEntry.file "a.md"] (by decide)

/-- Splitting `errorFiles` over an append of event streams. -/
theorem errorFiles_append (a b : List Event) :
    errorFiles (a ++ b) = errorFiles a ++ errorFiles b := by
  induction a with
  | nil => rfl
  | cons e rest ih =>
      cases e <;> simp [errorFiles, ih]

/-- Effect of one `uploadFile` run on the instrumented state: the
outcome is an upload or a failure (never a skip); skipped counters, the
result list and the skip-test digests are untouched; all emitted events
are per-file with at most one `file_error`; and at most one transfer
call, to the file itself, is issued. -/
theorem uploadFileModel_delta (env : Env) (st : DirState) (f : String)
    (i total : Nat) (st2 : DirState) (out : FileOutcome)
    (heq : uploadFileModel env st f i total = (st2, out)) :
    ∃ evs tcs,
      st2.completedFiles = st.completedFiles + uplOf out ∧
      st2.skippedFiles = st.skippedFiles ∧
      st2.failedFiles = st.failedFiles ∧
      st2.results = st.results ∧
      st2.skipHashCalls = st.skipHashCalls ∧
      st2.events = st.events ++ evs ∧
      (∀ e ∈ evs, e.isPerFile = true) ∧
      st2.transferCalls = st.transferCalls ++ tcs ∧
      tcs.length ≤ 1 ∧ (∀ p ∈ tcs, p = f) ∧
      uplOf out + failOf out = 1 ∧ skipOf out = 0 ∧
      (errorFiles evs).length ≤ failOf out := by
  unfold uploadFileModel at heq
  by_cases hsz : (env.files f).size > MAX_FILE_SIZE_BYTES
  · rw [if_pos hsz] at heq
    injection heq with h1 h2
    subst h1
    subst h2
    exact ⟨[], [], by simp [uplOf, failOf, skipOf, errorFiles]⟩
  · rw [if_neg hsz] at heq
    cases hm : getMimeTypeWithFallback f with
    | none =>
        rw [hm] at heq
        injection heq with h1 h2
        subst h1
        subst h2
        exact ⟨[], [], by simp [uplOf, failOf, skipOf, errorFiles]⟩
    | some mr =>
        rw [hm] at heq
        cases ht : env.transfer f with
        | ok op =>
            rw [ht] at heq
            injection heq with h1 h2
            subst h1
            subst h2
            refine ⟨[Event.file_start (jsBasename f) i total st.completedFiles
                st.skippedFiles (pctOf st.completedFiles st.skippedFiles total),
              Event.file_complete (jsBasename f) i total (st.completedFiles + 1)
                st.skippedFiles (pctOf (st.completedFiles + 1) st.skippedFiles total)],
              [f], ?_⟩
            simp [emit, uplOf, failOf, skipOf, errorFiles, Event.isPerFile]
        | error e =>
            rw [ht] at heq
            injection heq with h1 h2
            subst h1
            subst h2
            refine ⟨[Event.file_start (jsBasename f) i total st.completedFiles
                st.skippedFiles (pctOf st.completedFiles st.skippedFiles total),
              Event.file_error (jsBasename f) e i total st.completedFiles
                st.skippedFiles (pctOf st.completedFiles st.skippedFiles total)],
              [f], ?_⟩
            simp [emit, uplOf, failOf, skipOf, errorFiles, Event.isPerFile]

/-- Effect of one per-file task of a batch on the instrumented state:
exactly one of the three counters gains the file (upload, skip or, at
settle time, failure), emitted events are per-file with at most one
`file_error`, and at most one transfer call to the file itself is
issued. -/
theorem processFile_delta (env : Env) (smart : Bool)
    (existing : List (String × ExistingFileInfo)) (dirPath : String)
    (total : Nat) (st : DirState) (f : String) (i : Nat)
    (st2 : DirState) (out : FileOutcome)
    (heq : processFile env smart existing dirPath total st f i = (st2, out)) :
    ∃ evs tcs,
      st2.completedFiles = st.completedFiles + uplOf out ∧
      st2.skippedFiles = st.skippedFiles + skipOf out ∧
      st2.failedFiles = st.failedFiles ∧
      st2.results = st.results ∧
      st2.events = st.events ++ evs ∧
      (∀ e ∈ evs, e.isPerFile = true) ∧
      st2.transferCalls = st.transferCalls ++ tcs ∧
      tcs.length ≤ 1 ∧ (∀ p ∈ tcs, p = f) ∧
      uplOf out + skipOf out + failOf out = 1 ∧
      (errorFiles evs).length ≤ failOf out := by
  cases smart with
  | false =>
      simp only [processFile, Bool.false_eq_true, if_false] at heq
      obtain ⟨evs, tcs, hc, hsk, hf, hr, _, hev, hpf, htc, htl, htm, hsum, hsk0,
        herr⟩ := uploadFileModel_delta env st f i total st2 out heq
      refine ⟨evs, tcs, hc, ?_, hf, hr, hev, hpf, htc, htl, htm, by omega, herr⟩
      rw [hsk0]
      exact hsk
  | true =>
      simp only [processFile, if_true] at heq
      cases hlk : existing.lookup (relativeTo dirPath f) with
      | none =>
          rw [hlk] at heq
          obtain ⟨evs, tcs, hc, hsk, hf, hr, _, hev, hpf, htc, htl, htm, hsum,
            hsk0, herr⟩ := uploadFileModel_delta env st f i total st2 out heq
          refine ⟨evs, tcs, hc, ?_, hf, hr, hev, hpf, htc, htl, htm, by omega, herr⟩
          rw [hsk0]
          exact hsk
      | some info =>
          rw [hlk] at heq
          simp only [] at heq
          by_cases hh : (env.files f).hash = info.hash
          · rw [if_pos hh] at heq
            injection heq with h1 h2
            subst h1
            subst h2
            refine ⟨[Event.file_skipped (jsBasename f) i total st.completedFiles
              (st.skippedFiles + 1)
              (pctOf st.completedFiles (st.skippedFiles + 1) total)], [], ?_⟩
            simp [emit, uplOf, skipOf, failOf, errorFiles, Event.isPerFile]
          · rw [if_neg hh] at heq
            obtain ⟨evs, tcs, hc, hsk, hf, hr, _, hev, hpf, htc, htl, htm, hsum,
              hsk0, herr⟩ := uploadFileModel_delta env _ f i total st2 out heq
            refine ⟨evs, tcs, hc, ?_, hf, hr, hev, hpf, htc, htl, htm, by omega,
              herr⟩
            rw [hsk0]
            exact hsk

/-- Effect of the settle loop: counters and events are untouched except
that `failedFiles` gains one per rejected settlement and the result list
gains the fulfilled non-skipped values in order. -/
theorem settleBatch_delta (outs : List FileOutcome) : ∀ st : DirState,
    (settleBatch st outs).completedFiles = st.completedFiles ∧
    (settleBatch st outs).skippedFiles = st.skippedFiles ∧
    (settleBatch st outs).failedFiles = st.failedFiles + failCount outs ∧
    (settleBatch st outs).results = st.results ++ uploadedOps outs ∧
    (settleBatch st outs).events = st.events ∧
    (settleBatch st outs).transferCalls = st.transferCalls := by
  induction outs with
  | nil =>
      intro st
      simp [settleBatch, failCount, uploadedOps]
  | cons o rest ih =>
      intro st
      cases o with
      | skippedOut rel =>
          obtain ⟨h1, h2, h3, h4, h5, h6⟩ := ih st
          simp only [settleBatch]
          refine ⟨h1, h2, ?_, ?_, h5, h6⟩
          · rw [h3]
            simp [failCount, failOf]
          · rw [h4]
            simp [uploadedOps]
      | uploaded op =>
          obtain ⟨h1, h2, h3, h4, h5, h6⟩ :=
            ih { st with results := st.results ++ [op] }
          simp only [settleBatch]
          refine ⟨h1, h2, ?_, ?_, h5, h6⟩
          · rw [h3]
            simp [failCount, failOf]
          · rw [h4]
            simp [uploadedOps]
      | failed err =>
          obtain ⟨h1, h2, h3, h4, h5, h6⟩ :=
            ih { st with failedFiles := st.failedFiles + 1 }
          simp only [settleBatch]
          refine ⟨h1, h2, ?_, ?_, h5, h6⟩
          · rw [h3]
            show st.failedFiles + 1 + failCount rest = _
            simp [failCount, failOf]
            omega
          · rw [h4]
            simp [uploadedOps]

/-- Effect of one batch: one settlement per file, counters advance by
the settled outcomes, events stay per-file with at most one `file_error`
per failure, and the batch issues at most one transfer call per file,
each to a file of the batch. -/
theorem processBatch_delta (env : Env) (smart : Bool)
    (existing : List (String × ExistingFileInfo)) (dirPath : String)
    (total : Nat) :
    ∀ (b : List String) (st : DirState) (i : Nat) (st2 : DirState)
      (outs : List FileOutcome),
      processBatch env smart existing dirPath total st i b = (st2, outs) →
      ∃ evs tcs,
        outs.length = b.length ∧
        st2.completedFiles = st.completedFiles + uplCount outs ∧
        st2.skippedFiles = st.skippedFiles + skipCount outs ∧
        st2.failedFiles = st.failedFiles ∧
        st2.results = st.results ∧
        st2.events = st.events ++ evs ∧
        (∀ e ∈ evs, e.isPerFile = true) ∧
        st2.transferCalls = st.transferCalls ++ tcs ∧
        tcs.length ≤ b.length ∧ (∀ p ∈ tcs, p ∈ b) ∧
        uplCount outs + skipCount outs + failCount outs = b.length ∧
        (errorFiles evs).length ≤ failCount outs := by
  intro b
  induction b with
  | nil =>
      intro st i st2 outs heq
      simp only [processBatch] at heq
      injection heq with h1 h2
      subst h1
      subst h2
      exact ⟨[], [], by simp [uplCount, skipCount, failCount, errorFiles]⟩
  | cons f fs ih =>
      intro st i st2 outs heq
      simp only [processBatch] at heq
      rcases hp : processFile env smart existing dirPath total st f (i + 1) with
        ⟨st1, out1⟩
      rw [hp] at heq
      rcases hr : processBatch env smart existing dirPath total st1 (i + 1) fs with
        ⟨st3, outs3⟩
      rw [hr] at heq
      simp only [] at heq
      injection heq with h1 h2
      subst h1
      subst h2
      obtain ⟨evs1, tcs1, hc1, hs1, hf1, hr1, hev1, hpf1, htc1, htl1, htm1, hsum1,
        herr1⟩ := processFile_delta env smart existing dirPath total st f (i + 1)
          st1 out1 hp
      obtain ⟨evs2, tcs2, hlen2, hc2, hs2, hf2, hres2, hev2, hpf2, htc2, htl2,
        htm2, hsum2, herr2⟩ := ih st1 (i + 1) st3 outs3 hr
      refine ⟨evs1 ++ evs2, tcs1 ++ tcs2, ?_, ?_, ?_, ?_, ?_, ?_, ?_, ?_, ?_, ?_,
        ?_, ?_⟩
      · simp [hlen2]
      · rw [hc2, hc1]
        simp [uplCount]
        omega
      · rw [hs2, hs1]
        simp [skipCount]
        omega
      · rw [hf2, hf1]
      · rw [hres2, hr1]
      · rw [hev2, hev1]
        simp
      · intro e he
        rcases List.mem_append.mp he with h | h
        · exact hpf1 e h
        · exact hpf2 e h
      · rw [htc2, htc1]
        simp
      · simp only [List.length_append, List.length_cons]
        omega
      · intro p hpmem
        rcases List.mem_append.mp hpmem with h | h
        · rw [htm1 p h]
          exact List.mem_cons_self f fs
        · exact List.mem_cons_of_mem f (htm2 p h)
      · have h1 := hsum1
        have h2 := hsum2
        simp only [uplCount, skipCount, failCount, List.map_cons, List.sum_cons,
          List.length_cons] at h1 h2 ⊢
        omega
      · rw [errorFiles_append]
        have h1 := herr1
        have h2 := herr2
        simp only [failCount, List.map_cons, List.sum_cons,
          List.length_append] at h2 ⊢
        omega

/-- Effect of the batch loop: across all batches the three counters
together gain exactly one per file; the event stream grows only by
per-file events; the transfer calls decompose into one block per batch,
each block no larger than its batch and drawing only on its batch's
files; and `file_error` events never outnumber the failures counted at
settle time. -/
theorem runBatches_delta (env : Env) (smart : Bool)
    (existing : List (String × ExistingFileInfo)) (dirPath : String)
    (total : Nat) :
    ∀ (bs : List (List String)) (st : DirState) (i : Nat),
      ∃ evs tbs,
        (runBatches env smart existing dirPath total st i bs).completedFiles +
            (runBatches env smart existing dirPath total st i bs).skippedFiles +
            (runBatches env smart existing dirPath total st i bs).failedFiles =
          st.completedFiles + st.skippedFiles + st.failedFiles +
            (bs.map List.length).sum ∧
        (runBatches env smart existing dirPath total st i bs).events =
          st.events ++ evs ∧
        (∀ e ∈ evs, e.isPerFile = true) ∧
        (runBatches env smart existing dirPath total st i bs).transferCalls =
          st.transferCalls ++ tbs.join ∧
        List.Forall₂ (fun t b => t.length ≤ b.length ∧ ∀ p ∈ t, p ∈ b) tbs bs ∧
        st.failedFiles + (errorFiles evs).length ≤
          (runBatches env smart existing dirPath total st i bs).failedFiles := by
  intro bs
  induction bs with
  | nil =>
      intro st i
      refine ⟨[], [], ?_⟩
      simp [runBatches, errorFiles, List.Forall₂.nil]
  | cons b rest ih =>
      intro st i
      rcases hp : processBatch env smart existing dirPath total st i b with
        ⟨st1, outs⟩
      obtain ⟨evs1, tcs1, hlen1, hc1, hs1, hf1, hres1, hev1, hpf1, htc1, htl1,
        htm1, hsum1, herr1⟩ :=
        processBatch_delta env smart existing dirPath total b st i st1 outs hp
      obtain ⟨sc, ss, sf, sres, sev, stc⟩ := settleBatch_delta outs st1
      obtain ⟨evs2, tbs2, ih1, ih2, ih3, ih4, ih5, ih6⟩ :=
        ih (settleBatch st1 outs) (i + b.length)
      have hrw : runBatches env smart existing dirPath total st i (b :: rest) =
          runBatches env smart existing dirPath total (settleBatch st1 outs)
            (i + b.length) rest := by
        simp only [runBatches, hp]
      refine ⟨evs1 ++ evs2, tcs1 :: tbs2, ?_, ?_, ?_, ?_, ?_, ?_⟩
      · rw [hrw, ih1, sc, ss, sf, hc1, hs1, hf1]
        have h1 := hsum1
        simp only [List.map_cons, List.sum_cons]
        omega
      · rw [hrw, ih2, sev, hev1]
        simp
      · intro e he
        rcases List.mem_append.mp he with h | h
        · exact hpf1 e h
        · exact ih3 e h
      · rw [hrw, ih4, stc, htc1]
        simp
      · exact List.Forall₂.cons ⟨htl1, htm1⟩ ih5
      · rw [hrw]
        have h6 := ih6
        rw [sf, hf1] at h6
        rw [errorFiles_append]
        simp only [List.length_append]
        omega

/-- Joining the fuelled chunking recovers the original list, and every
chunk is no longer than the batch size, provided the batch size is
positive and the fuel covers the list. -/
theorem chunkAux_spec {α : Type} (C : Nat) (hC : 0 < C) :
    ∀ (fuel : Nat) (l : List α), l.length ≤ fuel →
      (chunkAux C fuel l).join = l ∧
      ∀ b ∈ chunkAux C fuel l, b.length ≤ C := by
  intro fuel
  induction fuel with
  | zero =>
      intro l hl
      have hnil : l = [] := List.length_eq_zero.mp (Nat.le_zero.mp hl)
      subst hnil
      exact ⟨rfl, by intro b hb; simp [chunkAux] at hb⟩
  | succ n ih =>
      intro l hl
      cases l with
      | nil => exact ⟨rfl, by intro b hb; simp [chunkAux] at hb⟩
      | cons x xs =>
          have hlen : (List.drop C (x :: xs)).length ≤ n := by
            simp only [List.length_drop, List.length_cons] at hl ⊢
            omega
          obtain ⟨h1, h2⟩ := ih _ hlen
          constructor
          · show ((x :: xs).take C :: chunkAux C n ((x :: xs).drop C)).join
              = x :: xs
            simp only [List.join_cons, h1, List.take_append_drop]
          · intro b hb
            rcases List.mem_cons.mp hb with hhd | htl
            · subst hhd
              simpa using List.length_take_le C (x :: xs)
            · exact h2 b htl

/-- The batches of the scheduler cover the file list exactly. -/
theorem chunkList_join {α : Type} (C : Nat) (hC : 0 < C) (l : List α) :
    (chunkList C l).join = l :=
  (chunkAux_spec C hC l.length l (Nat.le_refl _)).1

/-- Every batch of the scheduler has at most `C` files. -/
theorem chunkList_size {α : Type} (C : Nat) (hC : 0 < C) (l : List α) :
    ∀ b ∈ chunkList C l, b.length ≤ C :=
  (chunkAux_spec C hC l.length l (Nat.le_refl _)).2

/-- Pointwise strengthening of a `Forall₂` by a property of the right
list's members. -/
theorem forall2_strengthen {α β : Type} {R S : α → β → Prop} {P : β → Prop} :
    ∀ {l1 : List α} {l2 : List β}, List.Forall₂ R l1 l2 →
      (∀ b ∈ l2, P b) → (∀ a b, R a b → P b → S a b) →
      List.Forall₂ S l1 l2 := by
  intro l1 l2 h
  induction h with
  | nil => intro _ _; exact List.Forall₂.nil
  | cons hab htail ih =>
      intro hp himp
      refine List.Forall₂.cons (himp _ _ hab (hp _ (List.mem_cons_self _ _))) ?_
      exact ih (fun b hb => hp b (List.mem_cons_of_mem _ hb)) himp

/-- C1: at the job-level `complete` event, completed plus skipped plus
failed equals the total reported at the `start` event: every enumerated
file is counted exactly once as completed, skipped or failed. -/
theorem c1_complete_counters (env : Env) (dirPath : String)
    (allFiles : List String) (maxConcurrent : Nat) (smartSync : Bool)
    (hC : 0 < maxConcurrent) (dr : DirState)
    (hdr : dr = uploadDirectoryModel env dirPath allFiles maxConcurrent smartSync) :
    dr.completedFiles + dr.skippedFiles + dr.failedFiles = allFiles.length ∧
    dr.events.head? = some (Event.start allFiles.length 0) ∧
    dr.events.getLast? = some (Event.complete allFiles.length dr.completedFiles
      dr.skippedFiles dr.failedFiles 100) := by
  subst hdr
  have hj : ((chunkList maxConcurrent allFiles).map List.length).sum
      = allFiles.length := by
    have := congrArg List.length (chunkList_join maxConcurrent hC allFiles)
    simpa using this
  obtain ⟨evs, tbs, h1, h2, h3, h4, h5, h6⟩ :=
    runBatches_delta env smartSync
      (if smartSync then getExistingFileHashes env.listing else [])
      dirPath allFiles.length (chunkList maxConcurrent allFiles)
      (initDirState allFiles.length) 0
  refine ⟨?_, ?_, ?_⟩
  · simp only [uploadDirectoryModel]
    rw [h1]
    simp only [initDirState, hj]
    omega
  · simp only [uploadDirectoryModel]
    rw [h2]
    simp [initDirState]
  · simp only [uploadDirectoryModel]
    simp [List.getLast?_concat]

/-- Witness for C1: a three-file directory with one transfer failure,
batch size two. -/
theorem c1_complete_counters_witness :
    (uploadDirectoryModel envOneFail "d" ["d/a.txt", "d/b.txt", "d/c.txt"] 2
        false).completedFiles +
      (uploadDirectoryModel envOneFail "d" ["d/a.txt", "d/b.txt", "d/c.txt"] 2
        false).skippedFiles +
      (uploadDirectoryModel envOneFail "d" ["d/a.txt", "d/b.txt", "d/c.txt"] 2
        false).failedFiles = (["d/a.txt", "d/b.txt", "d/c.txt"] : List String).length ∧
    (uploadDirectoryModel envOneFail "d" ["d/a.txt", "d/b.txt", "d/c.txt"] 2
        false).events.head? =
      some (Event.start (["d/a.txt", "d/b.txt", "d/c.txt"] : List String).length 0) ∧
    (uploadDirectoryModel envOneFail "d" ["d/a.txt", "d/b.txt", "d/c.txt"] 2
        false).events.getLast? =
      some (Event.complete (["d/a.txt", "d/b.txt", "d/c.txt"] : List String).length
        (uploadDirectoryModel envOneFail "d" ["d/a.txt", "d/b.txt", "d/c.txt"] 2
          false).completedFiles
        (uploadDirectoryModel envOneFail "d" ["d/a.txt", "d/b.txt", "d/c.txt"] 2
          false).skippedFiles
        (uploadDirectoryModel envOneFail "d" ["d/a.txt", "d/b.txt", "d/c.txt"] 2
          false).failedFiles 100) :=
  c1_complete_counters envOneFail "d" ["d/a.txt", "d/b.txt", "d/c.txt"] 2 false
    (by decide) _ rfl

/-- C7: the scheduler partitions the enumerated files into contiguous
batches of at most `maxConcurrent` files covering the list exactly; the
`start` event precedes and the `complete` event follows all (purely
per-file) intermediate events; and the transfer calls decompose into one
block per batch, in batch order, each block issuing at most
`maxConcurrent` calls and touching only its batch's files, so no work of
batch `k+1` is issued until batch `k` has fully settled. -/
theorem c7_batching (env : Env) (dirPath : String) (allFiles : List String)
    (maxConcurrent : Nat) (smartSync : Bool) (hC : 0 < maxConcurrent)
    (dr : DirState)
    (hdr : dr = uploadDirectoryModel env dirPath allFiles maxConcurrent smartSync) :
    (chunkList maxConcurrent allFiles).join = allFiles ∧
    (∀ b ∈ chunkList maxConcurrent allFiles, b.length ≤ maxConcurrent) ∧
    (∃ evs, dr.events = Event.start allFiles.length 0 :: evs ++
        [Event.complete allFiles.length dr.completedFiles dr.skippedFiles
          dr.failedFiles 100] ∧
      ∀ e ∈ evs, e.isPerFile = true) ∧
    (∃ tbs, dr.transferCalls = tbs.join ∧
      List.Forall₂ (fun t b => t.length ≤ maxConcurrent ∧ ∀ p ∈ t, p ∈ b)
        tbs (chunkList maxConcurrent allFiles)) := by
  subst hdr
  obtain ⟨evs, tbs, h1, h2, h3, h4, h5, h6⟩ :=
    runBatches_delta env smartSync
      (if smartSync then getExistingFileHashes env.listing else [])
      dirPath allFiles.length (chunkList maxConcurrent allFiles)
      (initDirState allFiles.length) 0
  refine ⟨chunkList_join maxConcurrent hC allFiles,
    chunkList_size maxConcurrent hC allFiles, ⟨evs, ?_, h3⟩, ⟨tbs, ?_, ?_⟩⟩
  · simp only [uploadDirectoryModel]
    rw [h2]
    simp [initDirState]
  · simp only [uploadDirectoryModel]
    rw [h4]
    simp [initDirState]
  · refine forall2_strengthen h5 (chunkList_size maxConcurrent hC allFiles) ?_
    intro t b hr hp
    exact ⟨hr.1.trans hp, hr.2⟩

/-- Witness for C7: four files with batch size two. -/
theorem c7_batching_witness :
    (chunkList 2 ["d/a.txt", "d/b.txt", "d/c.txt", "d/e.txt"]).join =
      ["d/a.txt", "d/b.txt", "d/c.txt", "d/e.txt"] ∧
    (∀ b ∈ chunkList 2 ["d/a.txt", "d/b.txt", "d/c.txt", "d/e.txt"],
      b.length ≤ 2) ∧
    (∃ evs, (uploadDirectoryModel envAllOk "d"
        ["d/a.txt", "d/b.txt", "d/c.txt", "d/e.txt"] 2 false).events =
        Event.start (["d/a.txt", "d/b.txt", "d/c.txt", "d/e.txt"] :
          List String).length 0 :: evs ++
        [Event.complete (["d/a.txt", "d/b.txt", "d/c.txt", "d/e.txt"] :
            List String).length
          (uploadDirectoryModel envAllOk "d"
            ["d/a.txt", "d/b.txt", "d/c.txt", "d/e.txt"] 2 false).completedFiles
          (uploadDirectoryModel envAllOk "d"
            ["d/a.txt", "d/b.txt", "d/c.txt", "d/e.txt"] 2 false).skippedFiles
          (uploadDirectoryModel envAllOk "d"
            ["d/a.txt", "d/b.txt", "d/c.txt", "d/e.txt"] 2 false).failedFiles
          100] ∧
      ∀ e ∈ evs, e.isPerFile = true) ∧
    (∃ tbs, (uploadDirectoryModel envAllOk "d"
        ["d/a.txt", "d/b.txt", "d/c.txt", "d/e.txt"] 2 false).transferCalls =
        tbs.join ∧
      List.Forall₂ (fun t b => t.length ≤ 2 ∧ ∀ p ∈ t, p ∈ b)
        tbs (chunkList 2 ["d/a.txt", "d/b.txt", "d/c.txt", "d/e.txt"])) :=
  c7_batching envAllOk "d" ["d/a.txt", "d/b.txt", "d/c.txt", "d/e.txt"] 2 false
    (by decide) _ rfl

/-- Invariant of the `onProgress` reducer: as long as the local failure
counter and the record's `failedFiles` both equal the length of the
record's `failedFilesList`, folding any event stream appends exactly the
`file_error` events to the list and preserves both equalities. -/
theorem reducer_invariant (events : List Event) :
    ∀ rs : ReducerState,
      rs.failedFiles = rs.op.failedFilesList.length →
      rs.op.failedFiles = rs.op.failedFilesList.length →
      (events.foldl reduceEvent rs).op.failedFilesList
          = rs.op.failedFilesList ++ errorFiles events ∧
      (events.foldl reduceEvent rs).failedFiles
          = (events.foldl reduceEvent rs).op.failedFilesList.length ∧
      (events.foldl reduceEvent rs).op.failedFiles
          = (events.foldl reduceEvent rs).op.failedFilesList.length := by
  induction events with
  | nil =>
      intro rs h1 h2
      exact ⟨by simp [errorFiles], h1, h2⟩
  | cons e rest ih =>
      intro rs h1 h2
      have hstep : (reduceEvent rs e).failedFiles
            = (reduceEvent rs e).op.failedFilesList.length ∧
          (reduceEvent rs e).op.failedFiles
            = (reduceEvent rs e).op.failedFilesList.length ∧
          (reduceEvent rs e).op.failedFilesList
            = rs.op.failedFilesList ++ errorFiles [e] := by
        cases e <;> simp [reduceEvent, markInProgress, updateProgress,
          addFailedFile, errorFiles, h1, h2]
      obtain ⟨s1, s2, s3⟩ := hstep
      obtain ⟨i1, i2, i3⟩ := ih (reduceEvent rs e) s1 s2
      refine ⟨?_, i2, i3⟩
      simp only [List.foldl_cons]
      rw [i1, s3]
      cases e <;> simp [errorFiles]

/-- C2 counterexample: a one-file directory whose file is rejected by
classification (unsupported extension).  The directory run counts one
failure at its `complete` event, yet the persisted record ends with
`failedFiles = 0` and an empty `failedFilesList`: the claim that every
classification rejection is recorded in the job record fails. -/
theorem c2_counterexample :
    (uploadDirectoryModel envAllOk "d" ["d/a.xyz"] 5 false).failedFiles = 1 ∧
    (runJob (createOperation "op1" "d" "s" false "t0")
      (uploadDirectoryModel envAllOk "d" ["d/a.xyz"] 5 false).events
      "t1").failedFiles = 0 ∧
    (runJob (createOperation "op1" "d" "s" false "t0")
      (uploadDirectoryModel envAllOk "d" ["d/a.xyz"] 5 false).events
      "t1").failedFilesList = [] := by
  refine ⟨?_, ?_, ?_⟩ <;> decide

/-- C2 amended: per-file failures never abort the batch or the job
(every enumerated file is settled and the job record ends `completed`),
and the failures recorded in the persisted record's `failedFilesList`
and `failedFiles` counter are exactly the `file_error` events, which the
per-file pipeline emits for transfer-collaborator errors only;
classification and size rejections are counted in the `complete` event's
`failedFiles` but not recorded in the persisted record. -/
theorem c2_transfer_failures_recorded (env : Env)
    (dirPath storeName opId t0 t1 : String) (allFiles : List String)
    (maxConcurrent : Nat) (smartSync : Bool) (hC : 0 < maxConcurrent)
    (dr : DirState) (final : UploadOperation)
    (hdr : dr = uploadDirectoryModel env dirPath allFiles maxConcurrent smartSync)
    (hfin : final = runJob (createOperation opId dirPath storeName smartSync t0)
      dr.events t1) :
    final.failedFilesList = errorFiles dr.events ∧
    final.failedFiles = (errorFiles dr.events).length ∧
    final.status = OpStatus.completed ∧
    (errorFiles dr.events).length ≤ dr.failedFiles ∧
    dr.completedFiles + dr.skippedFiles + dr.failedFiles = allFiles.length := by
  obtain ⟨evs, tbs, h1, h2, h3, h4, h5, h6⟩ :=
    runBatches_delta env smartSync
      (if smartSync then getExistingFileHashes env.listing else [])
      dirPath allFiles.length (chunkList maxConcurrent allFiles)
      (initDirState allFiles.length) 0
  have hj : ((chunkList maxConcurrent allFiles).map List.length).sum
      = allFiles.length := by
    have := congrArg List.length (chunkList_join maxConcurrent hC allFiles)
    simpa using this
  obtain ⟨r1, r2, r3⟩ := reducer_invariant dr.events
    { op := createOperation opId dirPath storeName smartSync t0,
      completedFiles := 0, skippedFiles := 0, failedFiles := 0 }
    (by simp [createOperation]) (by simp [createOperation])
  have hflist : final.failedFilesList = errorFiles dr.events := by
    rw [hfin]
    show (markCompleted _ t1).failedFilesList = _
    simp only [markCompleted]
    rw [r1]
    simp [createOperation]
  have herrev : errorFiles dr.events = errorFiles evs := by
    subst hdr
    simp only [uploadDirectoryModel]
    rw [h2, errorFiles_append, errorFiles_append]
    simp [errorFiles, initDirState]
  refine ⟨hflist, ?_, ?_, ?_, ?_⟩
  · rw [hfin]
    show (markCompleted _ t1).failedFiles = _
    simp only [markCompleted]
    rw [r3, r1]
    simp [createOperation]
  · rw [hfin]
    rfl
  · rw [herrev]
    subst hdr
    simp only [uploadDirectoryModel]
    have h6a := h6
    simp only [initDirState] at h6a
    omega
  · subst hdr
    simp only [uploadDirectoryModel]
    rw [h1]
    simp only [initDirState, hj]
    omega

/-- Witness for C2 amended: two files, one failing transfer, batch size
five. -/
theorem c2_transfer_failures_recorded_witness :
    (runJob (createOperation "op1" "d" "s" false "t0")
        (uploadDirectoryModel envOneFail "d" ["d/a.txt", "d/b.txt"] 5
          false).events "t1").failedFilesList =
      errorFiles (uploadDirectoryModel envOneFail "d" ["d/a.txt", "d/b.txt"] 5
        false).events ∧
    (runJob (createOperation "op1" "d" "s" false "t0")
        (uploadDirectoryModel envOneFail "d" ["d/a.txt", "d/b.txt"] 5
          false).events "t1").failedFiles =
      (errorFiles (uploadDirectoryModel envOneFail "d" ["d/a.txt", "d/b.txt"] 5
        false).events).length ∧
    (runJob (createOperation "op1" "d" "s" false "t0")
        (uploadDirectoryModel envOneFail "d" ["d/a.txt", "d/b.txt"] 5
          false).events "t1").status = OpStatus.completed ∧
    (errorFiles (uploadDirectoryModel envOneFail "d" ["d/a.txt", "d/b.txt"] 5
        false).events).length ≤
      (uploadDirectoryModel envOneFail "d" ["d/a.txt", "d/b.txt"] 5
        false).failedFiles ∧
    (uploadDirectoryModel envOneFail "d" ["d/a.txt", "d/b.txt"] 5
        false).completedFiles +
      (uploadDirectoryModel envOneFail "d" ["d/a.txt", "d/b.txt"] 5
        false).skippedFiles +
      (uploadDirectoryModel envOneFail "d" ["d/a.txt", "d/b.txt"] 5
        false).failedFiles =
      (["d/a.txt", "d/b.txt"] : List String).length :=
  c2_transfer_failures_recorded envOneFail "d" "s" "op1" "t0" "t1"
    ["d/a.txt", "d/b.txt"] 5 false (by decide) _ _ rfl rfl

/-- An `uploadFile` run issues exactly one transfer call when the file
passes size and classification validation and none otherwise, and never
touches the skip-test digest log. -/
theorem uploadFileModel_transfer (env : Env) (st : DirState) (f : String)
    (i total : Nat) :
    (uploadFileModel env st f i total).1.transferCalls
      = st.transferCalls ++ (if passesValidation env f then [f] else []) ∧
    (uploadFileModel env st f i total).1.skipHashCalls = st.skipHashCalls := by
  unfold uploadFileModel passesValidation
  by_cases hsz : (env.files f).size > MAX_FILE_SIZE_BYTES
  · simp [hsz]
  · cases hm : getMimeTypeWithFallback f with
    | none => simp [hsz, hm]
    | some mr =>
        cases ht : env.transfer f with
        | ok op => simp [hsz, hm, ht, emit]
        | error e => simp [hsz, hm, ht, emit]

/-- C5 counterexample: a smart-sync directory upload of a single file
whose path is absent from the remote mapping issues no transfer call at
all (the file is rejected by classification first), contradicting the
claim that absence from the mapping yields exactly one transfer call. -/
theorem c5_counterexample :
    (uploadDirectoryModel envAllOk "d" ["d/a.xyz"] 5 true).transferCalls = [] ∧
    (getExistingFileHashes envAllOk.listing).lookup
      (relativeTo "d" "d/a.xyz") = none := by
  refine ⟨?_, ?_⟩ <;> decide

/-- C5 amended: with smart sync on, a mapping entry whose hash equals
the local digest skips the file - emitting exactly one `file_skipped`
event, issuing no transfer call, computing the digest for the skip test,
and (last conjunct) never entering the result list at settle time; a
mapping entry with a differing hash, or no entry, leads to exactly one
transfer call when the file passes size and classification validation
and none otherwise; and the skip-test digest is computed exactly when a
mapping entry exists. -/
theorem c5_smart_sync_amended (env : Env)
    (existing : List (String × ExistingFileInfo)) (dirPath : String)
    (total : Nat) (st : DirState) (f : String) (i : Nat) :
    (∀ info, existing.lookup (relativeTo dirPath f) = some info →
      (env.files f).hash = info.hash →
      processFile env true existing dirPath total st f i =
        ({ st with
            skippedFiles := st.skippedFiles + 1,
            hashCalls := st.hashCalls ++ [f],
            skipHashCalls := st.skipHashCalls ++ [f],
            events := st.events ++ [Event.file_skipped (jsBasename f) i total
              st.completedFiles (st.skippedFiles + 1)
              (pctOf st.completedFiles (st.skippedFiles + 1) total)] },
          FileOutcome.skippedOut (relativeTo dirPath f))) ∧
    (∀ info, existing.lookup (relativeTo dirPath f) = some info →
      (env.files f).hash ≠ info.hash →
      (processFile env true existing dirPath total st f i).1.transferCalls
          = st.transferCalls ++ (if passesValidation env f then [f] else []) ∧
      (processFile env true existing dirPath total st f i).1.skipHashCalls
          = st.skipHashCalls ++ [f]) ∧
    (existing.lookup (relativeTo dirPath f) = none →
      (processFile env true existing dirPath total st f i).1.transferCalls
          = st.transferCalls ++ (if passesValidation env f then [f] else []) ∧
      (processFile env true existing dirPath total st f i).1.skipHashCalls
          = st.skipHashCalls) ∧
    (∀ rel rest st1, settleBatch st1 (FileOutcome.skippedOut rel :: rest)
        = settleBatch st1 rest) := by
  refine ⟨?_, ?_, ?_, ?_⟩
  · intro info hlk hh
    simp only [processFile, if_true]
    rw [hlk]
    simp only [emit, hh, if_pos rfl, if_true]
  · intro info hlk hh
    simp only [processFile, if_true]
    rw [hlk]
    simp only []
    rw [if_neg hh]
    have := uploadFileModel_transfer env
      { st with
        hashCalls := st.hashCalls ++ [f],
        skipHashCalls := st.skipHashCalls ++ [f] } f i total
    exact this
  · intro hlk
    simp only [processFile, if_true]
    rw [hlk]
    exact uploadFileModel_transfer env st f i total
  · intro rel rest st1
    rfl

/-- Witness for C5 amended: the skip case at a concrete environment
whose remote mapping knows the file with its local digest. -/
theorem c5_smart_sync_amended_witness :
    processFile envSmartKnown true
      (getExistingFileHashes envSmartKnown.listing) "d" 1 (initDirState 1)
      "d/same.txt" 0 =
      ({ initDirState 1 with
          skippedFiles := (initDirState 1).skippedFiles + 1,
          hashCalls := (initDirState 1).hashCalls ++ ["d/same.txt"],
          skipHashCalls := (initDirState 1).skipHashCalls ++ ["d/same.txt"],
          events := (initDirState 1).events ++
            [Event.file_skipped (jsBasename "d/same.txt") 0 1
              (initDirState 1).completedFiles ((initDirState 1).skippedFiles + 1)
              (pctOf (initDirState 1).completedFiles
                ((initDirState 1).skippedFiles + 1) 1)] },
        FileOutcome.skippedOut (relativeTo "d" "d/same.txt")) :=
  (c5_smart_sync_amended envSmartKnown
    (getExistingFileHashes envSmartKnown.listing) "d" 1 (initDirState 1)
    "d/same.txt" 0).1 { hash := "H1", documentName := "documents/1" }
    (by decide) (by decide)

end DeepResearch
